import Mathlib

/-!
Verification development for the UDP input connection handler
(`src/plugins/in_udp/udp_conn.c`).

The embedding translates the C source into executable Lean definitions:
the connection buffer is a `List Char` holding the valid region
`buf_data[0 .. buf_len)` (the C code keeps a NUL sentinel at `buf_len`,
which text scanning relies on; the model works on the valid region
directly and assumes the payload carries no interior NUL).  Machine
integers stay well within range here, so `Nat`/`Int` are used without
explicit wrap-around.

The resumable JSON tokenizer `flb_pack_json_state` lives elsewhere in the
repository (only its caller is under `src/`), so it is modelled from the
specification; every definition carrying that caveat says so in its doc
comment.
-/

/-- The `{` character, kept as a named constant so JSON sample text can be
built without putting a raw brace inside a string literal. -/
def lbrace : Char := '\x7b'

/-- The `}` character, companion of `lbrace`. -/
def rbrace : Char := '\x7d'

/-- Shorthand turning a string literal into the `List Char` the model
uses for buffers. -/
def strL (s : String) : List Char := s.toList

/-- JSON values, doubling as the msgpack entries that
`msgpack_unpack_next` hands to `process_pack` (MSGPACK_OBJECT_MAP is
`jobj`, MSGPACK_OBJECT_ARRAY is `jarr`, all other msgpack types are the
remaining constructors). Numbers keep their raw lexeme. -/
inductive JValue where
  | jnull : JValue
  | jbool : Bool → JValue
  | jnum : List Char → JValue
  | jstr : List Char → JValue
  | jarr : List JValue → JValue
  | jobj : List (List Char × JValue) → JValue

/-- A record handed downstream: `[timestamp, payload]` as packed by
`process_pack` / `parse_payload_none` (the 2-element msgpack array whose
first member is `flb_pack_time_now`). Timestamps are abstracted as the
value of a per-pass clock. -/
abbrev Envelope := Nat × JValue

/-- The bookkeeping fields of `struct flb_pack_state` that
`udp_conn.c` touches (`multiple`, `tokens_count`, `last_byte`,
`buf_len`); the jsmn cursor itself is absorbed into the spec-modelled
tokenizer below. -/
structure PackState where
  multiple : Bool
  tokensCount : Nat
  lastByte : Nat
  stateBufLen : Nat
  deriving DecidableEq

/-- `flb_pack_state_init` alone (`multiple` defaults to off). -/
def freshState : PackState := ⟨false, 0, 0, 0⟩

/-- The reset sequence the C code uses: `flb_pack_state_reset` +
`flb_pack_state_init` + `pack_state.multiple = FLB_TRUE`. -/
def freshStateMultiple : PackState := ⟨true, 0, 0, 0⟩

/-- `ctx->format`: FLB_UDP_FMT_JSON or FLB_UDP_FMT_NONE. -/
inductive UdpFormat where
  | fmtJson : UdpFormat
  | fmtNone : UdpFormat
  deriving DecidableEq

/-- The configuration fields of `struct flb_in_udp_config` the handler
reads: format, separator, chunk_size, buffer_size (the ceiling). -/
structure Config where
  format : UdpFormat
  separator : List Char
  chunkSize : Nat
  bufferSize : Nat

/-- `struct udp_conn`: valid buffer region (`buf_data[0..buf_len)`),
allocated capacity `buf_size`, and the pack state. -/
structure Conn where
  buf : List Char
  bufSize : Nat
  packState : PackState

/-- `udp_conn_add`: fresh connection with a `chunk_size` allocation and,
for JSON format, an initialized pack state with `multiple` on. -/
def udp_conn_add (ctx : Config) : Conn :=
  { buf := []
    bufSize := ctx.chunkSize
    packState :=
      if ctx.format = UdpFormat.fmtJson then freshStateMultiple else freshState }

/-- `memmove(buf, buf + bytes, length - bytes)` over the physical array:
position `i < length - bytes` receives the old byte at `i + bytes`, the
tail of the array keeps its old content. -/
def consume_bytes (buf : List Char) (bytes length : Nat) : List Char :=
  ((buf.drop bytes).take (length - bytes)) ++ buf.drop (length - bytes)

/-- The valid region after `consume_bytes(buf, bytes, buf_len)` followed
by `conn->buf_len -= bytes` (the controller's lines 262-263). -/
def consume_front (buf : List Char) (bytes : Nat) : List Char :=
  (consume_bytes buf bytes buf.length).take (buf.length - bytes)

/-- The controller's leading-byte strip (lines 227-235): one leading CR
or LF byte is dropped, anything else is left alone. -/
def strip_leading (buf : List Char) : List Char :=
  match buf with
  | [] => []
  | c :: t => if c = '\r' ∨ c = '\n' then t else c :: t

/-! ### Spec-modelled resumable JSON tokenizer

`flb_pack_json_state` is repository code outside `src/`; the definitions
in this section are modelled from the specification's description of the
tokenizer capability: it scans the buffer for concatenated top-level
JSON values, returns Partial when the buffer ends mid-value with no
complete value yet, Invalid on malformed syntax, and otherwise the list
of complete values together with `last_byte`, the end offset of the last
complete value (bytes past it stay unconsumed).  Top-level scalars
tokenize successfully; the map-or-array check happens later in
`process_pack`, exactly as the specification separates the two. -/

/-- Whitespace skipped between JSON tokens. -/
def isWs (c : Char) : Bool := c = ' ' ∨ c = '\t' ∨ c = '\n' ∨ c = '\r'

/-- Drop leading JSON whitespace. -/
def skipWs : List Char → List Char
  | [] => []
  | c :: t => if isWs c then skipWs t else c :: t

/-- `leadsWith pat s` is true when `pat` is an initial run of `s`. -/
def leadsWith : List Char → List Char → Bool
  | [], _ => true
  | _ :: _, [] => false
  | a :: as, b :: bs => a = b && leadsWith as bs

/-- Outcome of parsing one JSON value: the value plus the remaining
input, or a partial/invalid verdict. -/
inductive PResult where
  | done : JValue → List Char → PResult
  | part : PResult
  | inval : PResult

/-- Body of a JSON string after the opening quote: returns the content
(escape pairs kept verbatim) and the input past the closing quote, or
`none` when the buffer ends inside the string. -/
def parseStringBody : List Char → Option (List Char × List Char)
  | [] => none
  | '"' :: t => some ([], t)
  | '\\' :: rest =>
    match rest with
    | [] => none
    | e :: t => (parseStringBody t).map fun p => ('\\' :: e :: p.1, p.2)
  | c :: t => (parseStringBody t).map fun p => (c :: p.1, p.2)

/-- Characters that may continue a JSON number lexeme. -/
def isNumChar (c : Char) : Bool :=
  c.isDigit || c = '-' || c = '+' || c = '.' || c = 'e' || c = 'E'

/-- Longest run of number characters at the front of the input. -/
def spanNum : List Char → List Char × List Char
  | [] => ([], [])
  | c :: t =>
    if isNumChar c then
      let p := spanNum t
      (c :: p.1, p.2)
    else ([], c :: t)

/-- Match a fixed literal (`true` / `false` / `null`): complete match,
truncated-at-end-of-buffer match, or invalid. -/
def parseLit (lit : List Char) (v : JValue) (s : List Char) : PResult :=
  if leadsWith lit s then .done v (s.drop lit.length)
  else if leadsWith s lit then .part
  else .inval

mutual

/-- One JSON value at the front of the (whitespace-skipped) input.
`fuel` only bounds recursion depth; it is instantiated large enough to
never run out. -/
def parseValue : Nat → List Char → PResult
  | 0, _ => .part
  | fuel + 1, s =>
    match s with
    | [] => .part
    | '\x7b' :: t => parseObj fuel t
    | '[' :: t => parseArr fuel t
    | '"' :: t =>
      match parseStringBody t with
      | none => .part
      | some p => .done (.jstr p.1) p.2
    | c :: _ =>
      if c = 't' then parseLit (strL "true") (.jbool true) s
      else if c = 'f' then parseLit (strL "false") (.jbool false) s
      else if c = 'n' then parseLit (strL "null") .jnull s
      else if isNumChar c then
        let p := spanNum s
        .done (.jnum p.1) p.2
      else .inval

/-- Object body after `{`. -/
def parseObj : Nat → List Char → PResult
  | 0, _ => .part
  | fuel + 1, s =>
    match skipWs s with
    | [] => .part
    | '\x7d' :: t => .done (.jobj []) t
    | s' => parseMembers fuel s' []

/-- Members of an object (`"key" : value`, comma separated). -/
def parseMembers : Nat → List Char → List (List Char × JValue) → PResult
  | 0, _, _ => .part
  | fuel + 1, s, acc =>
    match skipWs s with
    | [] => .part
    | '"' :: t =>
      match parseStringBody t with
      | none => .part
      | some kp =>
        match skipWs kp.2 with
        | [] => .part
        | ':' :: r2 =>
          match parseValue fuel (skipWs r2) with
          | .done v r3 =>
            match skipWs r3 with
            | [] => .part
            | ',' :: r4 => parseMembers fuel r4 (acc ++ [(kp.1, v)])
            | '\x7d' :: r4 => .done (.jobj (acc ++ [(kp.1, v)])) r4
            | _ => .inval
          | .part => .part
          | .inval => .inval
        | _ => .inval
    | _ => .inval

/-- Array body after `[`. -/
def parseArr : Nat → List Char → PResult
  | 0, _ => .part
  | fuel + 1, s =>
    match skipWs s with
    | [] => .part
    | ']' :: t => .done (.jarr []) t
    | s' => parseElems fuel s' []

/-- Elements of an array, comma separated. -/
def parseElems : Nat → List Char → List JValue → PResult
  | 0, _, _ => .part
  | fuel + 1, s, acc =>
    match parseValue fuel (skipWs s) with
    | .done v r =>
      match skipWs r with
      | [] => .part
      | ',' :: r2 => parseElems fuel r2 (acc ++ [v])
      | ']' :: r2 => .done (.jarr (acc ++ [v])) r2
      | _ => .inval
    | .part => .part
    | .inval => .inval

end

/-- Outcome of a whole tokenizing pass: complete values with the
end offset of the last one, or Partial / Invalid. -/
inductive JsonResult where
  | ok : List JValue → Nat → JsonResult
  | part : JsonResult
  | inval : JsonResult

/-- Modelled from the spec: the loop of the resumable tokenizer over
concatenated top-level values.  `total` is the full buffer length so the
current position can be recovered from the remaining input. -/
def tokenizeLoop : Nat → Nat → List Char → List JValue → Nat → JsonResult
  | 0, _, _, _, _ => .part
  | fuel + 1, total, s, acc, lastB =>
    match skipWs s with
    | [] => if acc.isEmpty then .part else .ok acc lastB
    | s' =>
      match parseValue fuel s' with
      | .done v rest => tokenizeLoop fuel total rest (acc ++ [v]) (total - rest.length)
      | .part => if acc.isEmpty then .part else .ok acc lastB
      | .inval => .inval

/-- Modelled from the spec: `flb_pack_json_state` (repository code not
under `src/`) — tokenize the buffer for multiple concatenated top-level
values, reporting Partial / Invalid / the complete values plus
`last_byte`. -/
def flb_pack_json_state (buf : List Char) : JsonResult :=
  tokenizeLoop (buf.length + 1) buf.length buf [] 0

/-! ### The code under `src/`: process_pack, the two framers, the event -/

/-- Entry check of `process_pack`: MSGPACK_OBJECT_MAP or
MSGPACK_OBJECT_ARRAY. -/
def isEntryOk : JValue → Bool
  | .jobj _ => true
  | .jarr _ => true
  | _ => false

/-- The `msgpack_unpack_next` loop of `process_pack` (lines 50-71): each
map entry is packed as `[ts, entry]`, each array entry as
`[ts, {"msg": entry}]`, and any other entry aborts with `none` (the C
returns -1 and destroys the local buffer, so nothing is forwarded).
`idx` numbers the entries so each gets its own clock sample. -/
def process_pack_loop (clock : Nat → Nat) : Nat → List JValue → Option (List Envelope)
  | _, [] => some []
  | idx, e :: rest =>
    match e with
    | .jobj _ =>
      (process_pack_loop clock (idx + 1) rest).map fun l => (clock idx, e) :: l
    | .jarr _ =>
      (process_pack_loop clock (idx + 1) rest).map fun l =>
        (clock idx, JValue.jobj [(strL "msg", e)]) :: l
    | _ => none

/-- `process_pack`: 0 plus the batch handed to `flb_input_log_append`
on success, -1 and an empty batch when some entry is neither map nor
array. -/
def process_pack (clock : Nat → Nat) (entries : List JValue) : Int × List Envelope :=
  match process_pack_loop clock 0 entries with
  | some envs => (0, envs)
  | none => (-1, [])

/-- `parse_payload_json` (lines 82-109): feed the buffer to the
tokenizer; on FLB_ERR_JSON_PART return 0 leaving everything untouched;
on FLB_ERR_JSON_INVAL zero the buffer, set `multiple`, and return -1; on
success run `process_pack` (its return value is ignored) and return
`pack_state.last_byte`. -/
def parse_payload_json (clock : Nat → Nat) (c : Conn) : Conn × Int × List Envelope :=
  match flb_pack_json_state c.buf with
  | .part => (c, 0, [])
  | .inval =>
    ({ c with buf := [], packState := { c.packState with multiple := true } }, -1, [])
  | .ok vals lastB =>
    let pr := process_pack clock vals
    ({ c with packState := { c.packState with lastByte := lastB } }, (lastB : Int), pr.2)

/-- Index of the first occurrence of `sep` in `buf` (the `strstr` call of
`parse_payload_none`); `some 0` for the empty needle, `none` when absent. -/
def find_sep : List Char → List Char → Option Nat
  | buf, sep =>
    if leadsWith sep buf then some 0
    else
      match buf with
      | [] => none
      | _ :: t => (find_sep t sep).map (· + 1)

/-- The `strstr` loop of `parse_payload_none` (lines 135-154): each
non-empty segment before a separator becomes `[ts, {"log": segment}]`,
the consumed counter grows by `len + 1` (the literal `+ 1` of line 148),
and scanning resumes past the separator (`buf += len + sep_len`,
line 149).  A separator at the very front stops the loop.  `fuel` only
bounds recursion depth. -/
def parse_payload_none_loop (sep : List Char) (clock : Nat → Nat) :
    Nat → Nat → List Char → Nat → List Envelope × Nat
  | 0, _, _, consumed => ([], consumed)
  | fuel + 1, idx, buf, consumed =>
    match find_sep buf sep with
    | none => ([], consumed)
    | some s =>
      if s = 0 then ([], consumed)
      else
        let r := parse_payload_none_loop sep clock fuel (idx + 1)
          (buf.drop (s + sep.length)) (consumed + s + 1)
        ((clock idx, JValue.jobj [(strL "log", JValue.jstr (buf.take s))]) :: r.1, r.2)

/-- `parse_payload_none`: the emitted batch and the consumed counter it
returns. -/
def parse_payload_none (sep : List Char) (clock : Nat → Nat) (buf : List Char) :
    List Envelope × Nat :=
  parse_payload_none_loop sep clock (buf.length + 1) 0 buf 0

/-- Lines 180-186: reset and reinitialize the pack state (with
`multiple` on) when the format is JSON and leftover bytes are buffered. -/
def reset_pending (ctx : Config) (c : Conn) : Conn :=
  if ctx.format = UdpFormat.fmtJson ∧ 0 < c.buf.length
  then { c with packState := freshStateMultiple } else c

/-- Lines 190-211: when fewer than one byte of headroom remains
(`buf_size - buf_len - 1 < 1`), grow by `chunk_size`, failing with
`none` when that would exceed `buffer_size`. -/
def grow_if_needed (ctx : Config) (c : Conn) : Option Conn :=
  if c.bufSize - c.buf.length - 1 < 1 then
    if ctx.bufferSize < c.bufSize + ctx.chunkSize then none
    else some { c with bufSize := c.bufSize + ctx.chunkSize }
  else some c

/-- Everything `udp_conn_event` leaves behind: the connection, the
callback's return value, the batch emitted downstream, the bytes the
read produced, and the buffer contents handed to the framer (`none`
when the event failed before framing). -/
structure EventResult where
  conn : Conn
  ret : Int
  emitted : List Envelope
  readData : List Char
  scanInput : Option (List Char)

/-- `udp_conn_event` (lines 163-274): reset pending JSON state, zero
`buf_len` (line 188), ensure headroom, read (`incoming` truncated to the
available slice), strip one leading CR/LF, frame according to the
format, consume the processed bytes, and for JSON zero the parser
bookkeeping for the next pass. -/
def udp_conn_event (clock : Nat → Nat) (ctx : Config) (c : Conn) (incoming : List Char) :
    EventResult :=
  let cB : Conn := { reset_pending ctx c with buf := [] }
  match grow_if_needed ctx cB with
  | none => ⟨cB, -1, [], [], none⟩
  | some cC =>
    let avail := cC.bufSize - cC.buf.length - 1
    let data := incoming.take avail
    if data.length = 0 then ⟨cC, -1, [], data, none⟩
    else
      let cD : Conn := { cC with buf := strip_leading data }
      match ctx.format with
      | UdpFormat.fmtJson =>
        let pr := parse_payload_json clock cD
        if pr.2.1 = 0 then ⟨pr.1, -1, pr.2.2, data, some cD.buf⟩
        else if pr.2.1 = -1 then
          ⟨{ pr.1 with packState := freshStateMultiple }, -1, pr.2.2, data, some cD.buf⟩
        else
          let cE : Conn := { pr.1 with buf := consume_front pr.1.buf pr.2.1.toNat }
          ⟨{ cE with packState :=
              { cE.packState with tokensCount := 0, lastByte := 0, stateBufLen := 0 } },
            (data.length : Int), pr.2.2, data, some cD.buf⟩
      | UdpFormat.fmtNone =>
        let pr := parse_payload_none ctx.separator clock cD.buf
        let retp : Int := (pr.2 : Int)
        if retp = 0 then ⟨cD, -1, pr.1, data, some cD.buf⟩
        else if retp = -1 then ⟨{ cD with buf := [] }, -1, pr.1, data, some cD.buf⟩
        else
          ⟨{ cD with buf := consume_front cD.buf retp.toNat },
            (data.length : Int), pr.1, data, some cD.buf⟩

/-- Fold `udp_conn_event` over a sequence of readability events, keeping
only the connection state. -/
def run_events (clock : Nat → Nat) (ctx : Config) : Conn → List (List Char) → Conn
  | c, [] => c
  | c, d :: ds => run_events clock ctx (udp_conn_event clock ctx c d).conn ds

/-! ### Concrete fixtures used by the claim theorems -/

/-- A deterministic clock for concrete runs. -/
def clk0 : Nat → Nat := fun i => i

/-- JSON-format configuration (chunk 64, ceiling 1024). -/
def ctxJson : Config := ⟨UdpFormat.fmtJson, strL "\n", 64, 1024⟩

/-- Delimited configuration with the single-byte separator `"\n"`. -/
def ctxNone : Config := ⟨UdpFormat.fmtNone, strL "\n", 64, 1024⟩

/-- The first half of a JSON map split across two datagrams. -/
def jsonHalf1 : List Char := strL "\x7b\"a\":1"

/-- First event of the split-JSON scenario. -/
def c1ev1 : EventResult := udp_conn_event clk0 ctxJson (udp_conn_add ctxJson) jsonHalf1

/-- Second event of the split-JSON scenario, fed the closing brace. -/
def c1ev2 : EventResult := udp_conn_event clk0 ctxJson c1ev1.conn (strL "\x7d")

/-- A connection holding the incomplete JSON value. -/
def c1conn : Conn := ⟨jsonHalf1, 64, freshStateMultiple⟩

/-- Event fed a bare scalar followed by the start of a map. -/
def c3ev : EventResult := udp_conn_event clk0 ctxJson (udp_conn_add ctxJson) (strL "42\x7b")

/-- A connection holding that same buffer. -/
def c3conn : Conn := ⟨strL "42\x7b", 64, freshStateMultiple⟩

/-- First delimited event: two full lines and a trailing fragment. -/
def c4ev1 : EventResult :=
  udp_conn_event clk0 ctxNone (udp_conn_add ctxNone) (strL "hello\nworld\npartial")

/-- The following delimited event with a fresh datagram. -/
def c4ev2 : EventResult := udp_conn_event clk0 ctxNone c4ev1.conn (strL "X\n")

/-- Two complete JSON maps back to back, no separator. -/
def jsonTwo : List Char := strL "\x7b\"a\":1\x7d\x7b\"b\":2\x7d"

/-- A connection holding the two concatenated maps. -/
def c6conn : Conn := ⟨jsonTwo, 64, freshStateMultiple⟩

/-- Delimited event leaving the fragment `"bc"` after consumption. -/
def c7ev1 : EventResult := udp_conn_event clk0 ctxNone (udp_conn_add ctxNone) (strL "a\nbc")

/-- The next delimited event after `c7ev1`. -/
def c7ev2 : EventResult := udp_conn_event clk0 ctxNone c7ev1.conn (strL "d\n")

/-- Ceiling-1 configuration for exercising the growth-failure branch. -/
def ctxCeil : Config := ⟨UdpFormat.fmtNone, strL "\n", 1, 1⟩

/-- Connection already at the one-byte capacity of `ctxCeil`. -/
def connCeil : Conn := ⟨[], 1, freshState⟩

/-- Entry list with a map then a bare array, for the emitter claims. -/
def c8entries : List JValue :=
  [JValue.jobj [(strL "a", JValue.jnum (strL "1"))], JValue.jarr []]

/-- The payload-wrapping rule as the specification words it: a map
entry passes through unchanged, a bare array is wrapped as
`{"msg": entry}`. -/
def spec_wrap_payload (e : JValue) : JValue :=
  match e with
  | JValue.jarr _ => JValue.jobj [(strL "msg", e)]
  | _ => e

/-! ### Theorems -/

/-- Claim C1: counterexample. Feeding the bytes of `{"a":1` in one event
and `}` in the next emits no envelope at all — the claim demands exactly
one envelope carrying the map.  The first event does leave the buffered
bytes in place, but the second event discards them (line 188 zeroes
`buf_len` unconditionally) and resets the parser state, so the closing
brace arrives alone and is rejected as invalid. -/
theorem C1_counterexample :
    c1ev1.emitted ++ c1ev2.emitted = [] ∧
    c1ev1.conn.buf = jsonHalf1 ∧
    c1ev2.conn.buf = [] ∧
    c1ev2.conn.packState = freshStateMultiple := ⟨rfl, rfl, rfl, rfl⟩

/-- Claim C1 (amended): when the tokenizing pass reports an incomplete
JSON value, the framing pass itself (`parse_payload_json`) leaves the
connection — buffered bytes and parser state — unchanged and emits
nothing; however, the controller zeroes the buffer length and resets the
parser state at the start of the next event, so the retained bytes never
meet the next datagram: the two-event split feed emits zero envelopes. -/
theorem C1_amended_pass_retention (clock : Nat → Nat) (c : Conn)
    (h : flb_pack_json_state c.buf = JsonResult.part) :
    parse_payload_json clock c = (c, 0, []) ∧
    c1ev1.conn.buf = jsonHalf1 ∧
    c1ev2.emitted = [] ∧ c1ev1.emitted = [] := by
  refine ⟨?_, rfl, rfl, rfl⟩
  unfold parse_payload_json
  rw [h]

/-- Claim C1: witness — the amended theorem applied to the concrete
connection holding `{"a":1`. -/
theorem C1_witness :
    parse_payload_json clk0 c1conn = (c1conn, 0, []) ∧
    c1ev1.conn.buf = jsonHalf1 ∧
    c1ev2.emitted = [] ∧ c1ev1.emitted = [] :=
  C1_amended_pass_retention clk0 c1conn rfl

/-- Claim C2: with the two-byte separator `"ab"` and buffer `"xab"`, the
segment `"x"` (length 1) is matched and packaged, but the returned
consumed counter is 2 = `len + 1` (line 148), not 3 = `len + sep_len` as
the claim states — the scan position does advance by `len + sep_len`
(line 149), which is why only one record is produced. -/
theorem C2_consumed_counter :
    parse_payload_none (strL "ab") clk0 (strL "xab") =
      ([(clk0 0, JValue.jobj [(strL "log", JValue.jstr (strL "x"))])], 2) ∧
    (2 : Nat) ≠ 1 + (strL "ab").length := ⟨rfl, by decide⟩

/-- Claim C3: counterexample. With buffer `42{` (a bare scalar followed
by the start of a map) the pass is not aborted with the Invalid outcome:
the event returns the read size 3 (not -1), nothing is emitted, and the
buffer is not discarded — the trailing `{` remains buffered. -/
theorem C3_counterexample :
    c3ev.ret = 3 ∧ c3ev.ret ≠ -1 ∧ c3ev.emitted = [] ∧
    c3ev.conn.buf = strL "\x7b" ∧ c3ev.conn.buf ≠ [] := by
  refine ⟨rfl, by decide, rfl, rfl, by decide⟩

/-- Helper: `process_pack`'s unpack loop returns `none` (the C function
returns -1 before ever calling `flb_input_log_append`) as soon as the
entry list contains a value that is neither map nor array, regardless of
its position. -/
theorem process_pack_loop_bad (clock : Nat → Nat) :
    ∀ (entries : List JValue) (idx : Nat),
      (∃ e ∈ entries, isEntryOk e = false) →
      process_pack_loop clock idx entries = none := by
  intro entries
  induction entries with
  | nil => intro idx h; simp at h
  | cons e rest ih =>
    intro idx h
    rcases h with ⟨x, hx, hbad⟩
    rcases List.mem_cons.mp hx with rfl | hxr
    · cases x with
      | jarr a => simp [isEntryOk] at hbad
      | jobj a => simp [isEntryOk] at hbad
      | jnull => rfl
      | jbool b => rfl
      | jnum s => rfl
      | jstr s => rfl
    · cases e with
      | jarr a => simp only [process_pack_loop]; rw [ih (idx + 1) ⟨x, hxr, hbad⟩]; rfl
      | jobj a => simp only [process_pack_loop]; rw [ih (idx + 1) ⟨x, hxr, hbad⟩]; rfl
      | jnull => rfl
      | jbool b => rfl
      | jnum s => rfl
      | jstr s => rfl

/-- Claim C3 (amended): when any top-level entry is not a map or array,
`process_pack` aborts and forwards nothing downstream (it returns -1
with an empty batch); but `parse_payload_json` ignores that result and
completes the pass as a success, returning `last_byte` — for the buffer
`42{` it returns 2, leaving the trailing partial value buffered, with
the Invalid path (buffer discard, hard reset) never taken. -/
theorem C3_amended_ignored_abort (clock : Nat → Nat) (entries : List JValue)
    (h : ∃ e ∈ entries, isEntryOk e = false) :
    process_pack clock entries = (-1, []) ∧
    parse_payload_json clock c3conn =
      ({ c3conn with packState := ⟨true, 0, 2, 0⟩ }, 2, []) := by
  constructor
  · unfold process_pack
    rw [process_pack_loop_bad clock entries 0 h]
  · rfl

/-- Claim C3: witness — the amended theorem at the singleton scalar
entry list produced by tokenizing `42`. -/
theorem C3_witness :
    process_pack clk0 [JValue.jnum (strL "42")] = (-1, []) ∧
    parse_payload_json clk0 c3conn =
      ({ c3conn with packState := ⟨true, 0, 2, 0⟩ }, 2, []) :=
  C3_amended_ignored_abort clk0 [JValue.jnum (strL "42")]
    ⟨JValue.jnum (strL "42"), by simp, rfl⟩

/-- Claim C4: counterexample. After the first event leaves the 7 bytes
`"partial"` buffered, the next event's framing pass scans only the new
datagram `"X\n"` (line 188 zeroed the buffer first): the pass input is
`"X\n"`, not `"partial" ++ "X\n"`, and the emitted record is `"X"`, not
`"partialX"`. -/
theorem C4_counterexample :
    c4ev1.conn.buf = strL "partial" ∧
    c4ev2.scanInput = some (strL "X\n") ∧
    c4ev2.scanInput ≠ some (strL "partial" ++ strL "X\n") ∧
    c4ev2.emitted = [(clk0 0, JValue.jobj [(strL "log", JValue.jstr (strL "X"))])] := by
  refine ⟨rfl, rfl, by decide, rfl⟩

/-- Claim C4 (amended): the single framing pass over
`"hello\nworld\npartial"` with separator `"\n"` emits exactly the two
envelopes `{"log":"hello"}` then `{"log":"world"}`, reports 12 bytes
consumed, and the 7 bytes `"partial"` remain buffered at the end of the
event; however, the controller zeroes the buffer length at the start of
the next event, so those bytes are not part of the next framing pass —
the next pass scans the new datagram only. -/
theorem C4_amended_single_pass :
    c4ev1.emitted =
      [(clk0 0, JValue.jobj [(strL "log", JValue.jstr (strL "hello"))]),
       (clk0 1, JValue.jobj [(strL "log", JValue.jstr (strL "world"))])] ∧
    (parse_payload_none (strL "\n") clk0 (strL "hello\nworld\npartial")).2 = 12 ∧
    c4ev1.conn.buf = strL "partial" ∧
    (strL "partial").length = 7 ∧
    c4ev2.readData = strL "X\n" ∧
    c4ev2.scanInput = some (strL "X\n") := ⟨rfl, rfl, rfl, rfl, rfl, rfl⟩

/-- Claim C6: a single event whose buffer holds `{"a":1}{"b":2}` emits
exactly the two envelopes `[ts, {"a":1}]` then `[ts, {"b":2}]` in that
order, each timestamp sampled per entry; the scan returns 14 — the end
offset of the last complete value, here the whole buffer — as the
consumed count, and the buffer is fully consumed. -/
theorem C6_two_concatenated_maps (clock : Nat → Nat) :
    (udp_conn_event clock ctxJson (udp_conn_add ctxJson) jsonTwo).emitted =
      [(clock 0, JValue.jobj [(strL "a", JValue.jnum (strL "1"))]),
       (clock 1, JValue.jobj [(strL "b", JValue.jnum (strL "2"))])] ∧
    (parse_payload_json clock c6conn).2.1 = (14 : Int) ∧
    jsonTwo.length = 14 ∧
    (udp_conn_event clock ctxJson (udp_conn_add ctxJson) jsonTwo).conn.buf = [] :=
  ⟨rfl, rfl, rfl, rfl⟩

/-- Claim C6: witness — the theorem at the deterministic clock. -/
theorem C6_witness :
    (udp_conn_event clk0 ctxJson (udp_conn_add ctxJson) jsonTwo).emitted =
      [(clk0 0, JValue.jobj [(strL "a", JValue.jnum (strL "1"))]),
       (clk0 1, JValue.jobj [(strL "b", JValue.jnum (strL "2"))])] ∧
    (parse_payload_json clk0 c6conn).2.1 = (14 : Int) ∧
    jsonTwo.length = 14 ∧
    (udp_conn_event clk0 ctxJson (udp_conn_add ctxJson) jsonTwo).conn.buf = [] :=
  C6_two_concatenated_maps clk0

/-- Helper: whichever format is configured, when `udp_conn_event`
reaches the framer it hands it exactly the bytes the read produced with
the single-byte strip applied. -/
theorem event_scan_aux (clock : Nat → Nat) (ctx : Config) (c : Conn) (inc : List Char)
    (r : EventResult) (hr : udp_conn_event clock ctx c inc = r) :
    ∀ si, r.scanInput = some si → si = strip_leading r.readData := by
  simp only [udp_conn_event] at hr
  split at hr
  · subst hr; intro si h; cases h
  · split at hr
    · subst hr; intro si h; cases h
    · split at hr
      · split at hr
        · subst hr; intro si h; cases h; rfl
        · split at hr
          · subst hr; intro si h; cases h; rfl
          · subst hr; intro si h; cases h; rfl
      · split at hr
        · subst hr; intro si h; cases h; rfl
        · split at hr
          · subst hr; intro si h; cases h; rfl
          · subst hr; intro si h; cases h; rfl

/-- Claim C9: the strip step removes exactly one byte from the front of
the buffer if and only if the first byte is CR or LF (never more than
one, never any other byte), and every framing pass of the event handler
— regardless of format — scans exactly the read bytes with that strip
applied. -/
theorem C9_leading_strip (b : List Char) (hb : b ≠ []) :
    (((strip_leading b).length = b.length - 1) ↔
      (b.head hb = '\r' ∨ b.head hb = '\n')) ∧
    ((b.head hb = '\r' ∨ b.head hb = '\n') → strip_leading b = b.tail) ∧
    (¬(b.head hb = '\r' ∨ b.head hb = '\n') → strip_leading b = b) ∧
    (∀ (clock : Nat → Nat) (ctx : Config) (c : Conn) (inc : List Char) si,
      (udp_conn_event clock ctx c inc).scanInput = some si →
      si = strip_leading ((udp_conn_event clock ctx c inc).readData)) := by
  refine ⟨?_, ?_, ?_, ?_⟩
  · cases b with
    | nil => exact absurd rfl hb
    | cons ch t =>
      simp only [strip_leading, List.head_cons]
      by_cases h : ch = '\r' ∨ ch = '\n'
      · simp [h]
      · simp only [if_neg h]
        constructor
        · intro hlen
          simp only [List.length_cons, Nat.add_sub_cancel] at hlen
          omega
        · intro hc; exact absurd hc h
  · cases b with
    | nil => exact absurd rfl hb
    | cons ch t =>
      intro h
      simp only [strip_leading, List.head_cons] at h ⊢
      simp [h]
  · cases b with
    | nil => exact absurd rfl hb
    | cons ch t =>
      intro h
      simp only [strip_leading, List.head_cons] at h ⊢
      simp [if_neg h]
  · intro clock ctx c inc si h
    exact event_scan_aux clock ctx c inc _ rfl si h

/-- Claim C9: witness — the theorem at the buffer `"\nabc"`, whose
single leading LF is stripped. -/
theorem C9_witness :
    strip_leading (strL "\nabc") = (strL "\nabc").tail ∧
    (strip_leading (strL "\nabc")).length = (strL "\nabc").length - 1 := by
  have h := C9_leading_strip (strL "\nabc") (by decide)
  exact ⟨h.2.1 (Or.inr rfl), h.1.mpr (Or.inr rfl)⟩

/-- Helper: the consumed counter of the delimited scan loop only ever
grows from its accumulator. -/
theorem none_loop_consumed_ge (sep : List Char) (clock : Nat → Nat) :
    ∀ (fuel idx : Nat) (buf : List Char) (consumed : Nat),
      consumed ≤ (parse_payload_none_loop sep clock fuel idx buf consumed).2 := by
  intro fuel
  induction fuel with
  | zero => intro idx buf consumed; exact Nat.le_refl _
  | succ fuel ih =>
    intro idx buf consumed
    simp only [parse_payload_none_loop]
    split
    · exact Nat.le_refl _
    · split
      · exact Nat.le_refl _
      · exact le_trans (by omega) (ih (idx + 1) _ (consumed + _ + 1))

/-- Claim C10: the delimited scan returns a consumed count that is a
natural number cast to the signed return type, hence never negative and
in particular never the -1 that the controller's delimited error branch
(lines 256-259, buffer discard) tests for: that branch is unreachable. -/
theorem C10_nonnegative_consumed (sep : List Char) (clock : Nat → Nat) (buf : List Char)
    (hsep : sep ≠ []) :
    (0 : Int) ≤ ((parse_payload_none sep clock buf).2 : Int) ∧
    ((parse_payload_none sep clock buf).2 : Int) ≠ -1 := by
  constructor
  · exact Int.natCast_nonneg _
  · intro h
    omega

/-- Claim C10: witness — the theorem at separator `"\n"` and buffer
`"x\n"`. -/
theorem C10_witness :
    (0 : Int) ≤ ((parse_payload_none (strL "\n") clk0 (strL "x\n")).2 : Int) ∧
    ((parse_payload_none (strL "\n") clk0 (strL "x\n")).2 : Int) ≠ -1 :=
  C10_nonnegative_consumed (strL "\n") clk0 (strL "x\n") (by decide)

/-- Helper: every record the delimited scan loop emits is the envelope
of a contiguous segment of the loop's buffer, stamped with the clock
sample for its position in the batch. -/
theorem none_loop_records (sep : List Char) (clock : Nat → Nat) :
    ∀ (fuel idx : Nat) (buf : List Char) (consumed k : Nat) (env : Envelope),
      ((parse_payload_none_loop sep clock fuel idx buf consumed).1)[k]? = some env →
      ∃ off ln, env =
        (clock (idx + k),
         JValue.jobj [(strL "log", JValue.jstr ((buf.drop off).take ln))]) := by
  intro fuel
  induction fuel with
  | zero =>
    intro idx buf consumed k env h
    simp [parse_payload_none_loop] at h
  | succ fuel ih =>
    intro idx buf consumed k env h
    simp only [parse_payload_none_loop] at h
    split at h
    · simp at h
    · split at h
      · simp at h
      · rename_i x s hfind hs
        cases k with
        | zero =>
          rw [List.getElem?_cons_zero] at h
          cases h
          refine ⟨0, s, ?_⟩
          rw [Nat.add_zero, List.drop_zero]
        | succ m =>
          rw [List.getElem?_cons_succ] at h
          rcases ih (idx + 1) _ _ m env h with ⟨off, ln, henv⟩
          refine ⟨s + sep.length + off, ln, ?_⟩
          rw [henv, List.drop_drop]
          have hidx : idx + 1 + m = idx + (m + 1) := by omega
          rw [hidx]

/-- Helper: the valid region left by the memmove-based consumption is
exactly the dropped suffix of the old valid region. -/
theorem consume_front_eq_drop (b : List Char) (n : Nat) (hn : n ≤ b.length) :
    consume_front b n = b.drop n := by
  unfold consume_front consume_bytes
  have h1 : (b.drop n).length = b.length - n := List.length_drop n b
  rw [List.take_of_length_le (le_of_eq h1), List.take_left' h1]

/-- Claim C7: counterexample. After the first event consumes 2 bytes of
`"a\nbc"` the retained bytes are `"bc"`, but the next framing pass does
not begin with them: the controller zeroes the buffer length at the
start of the next event (line 188), so the next pass scans only the new
datagram `"d\n"`, which does not start with `"bc"`. -/
theorem C7_counterexample :
    c7ev1.conn.buf = strL "bc" ∧
    c7ev2.scanInput = some (strL "d\n") ∧
    leadsWith (strL "bc") (strL "d\n") = false ∧
    c7ev2.emitted = [(clk0 0, JValue.jobj [(strL "log", JValue.jstr (strL "d"))])] :=
  ⟨rfl, rfl, rfl, rfl⟩

/-- Claim C7 (amended): consuming `n` bytes shifts the buffer so the
former bytes at `[n, length)` are exactly, in order, the bytes at
`[0, length - n)` of the buffer left at the end of the event, and every
record a delimited framing pass emits is a contiguous segment of that
pass's own scan buffer (so bytes consumed by an earlier pass cannot
reappear); the retained bytes are, however, discarded — not rescanned —
at the start of the next event. -/
theorem C7_amended_consume_shift (b : List Char) (n : Nat) (hn : n ≤ b.length) :
    consume_front b n = b.drop n ∧
    (∀ i, (consume_front b n)[i]? = b[n + i]?) ∧
    (∀ (sep : List Char) (clock : Nat → Nat) (buf : List Char) (k : Nat) (env : Envelope),
      ((parse_payload_none sep clock buf).1)[k]? = some env →
      ∃ off ln, env.2 = JValue.jobj [(strL "log", JValue.jstr ((buf.drop off).take ln))]) := by
  refine ⟨consume_front_eq_drop b n hn, ?_, ?_⟩
  · intro i
    rw [consume_front_eq_drop b n hn, List.getElem?_drop]
  · intro sep clock buf k env h
    rcases none_loop_records sep clock (buf.length + 1) 0 buf 0 k env h with ⟨off, ln, henv⟩
    exact ⟨off, ln, by rw [henv]⟩

/-- Claim C7: witness — the amended theorem at `b = "abcd"`, `n = 2`,
with the segment conjunct instantiated at the pass over `"x\n"`. -/
theorem C7_witness :
    consume_front (strL "abcd") 2 = (strL "abcd").drop 2 ∧
    (consume_front (strL "abcd") 2)[1]? = (strL "abcd")[2 + 1]? ∧
    (∃ off ln,
      ((clk0 0, JValue.jobj [(strL "log", JValue.jstr (strL "x"))]) : Envelope).2 =
        JValue.jobj [(strL "log", JValue.jstr (((strL "x\n").drop off).take ln))]) := by
  have h := C7_amended_consume_shift (strL "abcd") 2 (by decide)
  exact ⟨h.1, h.2.1 1,
    h.2.2 (strL "\n") clk0 (strL "x\n") 0
      (clk0 0, JValue.jobj [(strL "log", JValue.jstr (strL "x"))]) rfl⟩

/-- Helper: when every entry is a map or an array, `process_pack`'s
loop succeeds and the `k`-th envelope pairs the `k`-th clock sample with
the spec's wrapping of the `k`-th entry. -/
theorem process_pack_loop_ok (clock : Nat → Nat) :
    ∀ (entries : List JValue) (idx : Nat),
      (∀ e ∈ entries, isEntryOk e = true) →
      ∃ envs, process_pack_loop clock idx entries = some envs ∧
        ∀ k e, entries[k]? = some e →
          envs[k]? = some (clock (idx + k), spec_wrap_payload e) := by
  intro entries
  induction entries with
  | nil =>
    intro idx _
    refine ⟨[], rfl, ?_⟩
    intro k e hk
    simp at hk
  | cons e rest ih =>
    intro idx h
    have he : isEntryOk e = true := h e (List.mem_cons_self e rest)
    have hrest : ∀ x ∈ rest, isEntryOk x = true :=
      fun x hx => h x (List.mem_cons_of_mem e hx)
    rcases ih (idx + 1) hrest with ⟨envs, hloop, hidx⟩
    cases e with
    | jobj fields =>
      refine ⟨(clock idx, JValue.jobj fields) :: envs, ?_, ?_⟩
      · simp only [process_pack_loop, hloop]
        rfl
      · intro k x hk
        cases k with
        | zero =>
          rw [List.getElem?_cons_zero] at hk
          cases hk
          rw [List.getElem?_cons_zero, Nat.add_zero]
          rfl
        | succ m =>
          rw [List.getElem?_cons_succ] at hk ⊢
          have := hidx m x hk
          have harith : idx + 1 + m = idx + (m + 1) := by omega
          rw [harith] at this
          exact this
    | jarr elems =>
      refine ⟨(clock idx, JValue.jobj [(strL "msg", JValue.jarr elems)]) :: envs, ?_, ?_⟩
      · simp only [process_pack_loop, hloop]
        rfl
      · intro k x hk
        cases k with
        | zero =>
          rw [List.getElem?_cons_zero] at hk
          cases hk
          rw [List.getElem?_cons_zero, Nat.add_zero]
          rfl
        | succ m =>
          rw [List.getElem?_cons_succ] at hk ⊢
          have := hidx m x hk
          have harith : idx + 1 + m = idx + (m + 1) := by omega
          rw [harith] at this
          exact this
    | jnull => simp [isEntryOk] at he
    | jbool b => simp [isEntryOk] at he
    | jnum s => simp [isEntryOk] at he
    | jstr s => simp [isEntryOk] at he

/-- Claim C8: every emitted record is a 2-element envelope
`[timestamp, payload]` with the timestamp sampled once per entry at
serialization time (entry `k` of a batch gets the `k`-th clock sample,
preserving order), the payload being the entry itself for a map, the
`{"msg": entry}` wrapper for a bare array, and `{"log": segment}` for a
delimited-mode segment. -/
theorem C8_envelope_shape (clock : Nat → Nat) (entries : List JValue)
    (h : ∀ e ∈ entries, isEntryOk e = true) :
    (process_pack clock entries).1 = 0 ∧
    (∀ k e, entries[k]? = some e →
      (process_pack clock entries).2[k]? = some (clock k, spec_wrap_payload e)) ∧
    (∀ (sep : List Char) (buf : List Char) (k : Nat) (env : Envelope),
      ((parse_payload_none sep clock buf).1)[k]? = some env →
      ∃ seg, env = (clock k, JValue.jobj [(strL "log", JValue.jstr seg)])) := by
  rcases process_pack_loop_ok clock entries 0 h with ⟨envs, hloop, hidx⟩
  refine ⟨?_, ?_, ?_⟩
  · unfold process_pack
    rw [hloop]
  · intro k e hk
    unfold process_pack
    rw [hloop]
    have := hidx k e hk
    rw [Nat.zero_add] at this
    exact this
  · intro sep buf k env hk
    rcases none_loop_records sep clock (buf.length + 1) 0 buf 0 k env hk with ⟨off, ln, henv⟩
    rw [Nat.zero_add] at henv
    exact ⟨_, henv⟩

/-- Claim C8: witness — the theorem at a map entry followed by a bare
array entry, with the indexed conjuncts instantiated. -/
theorem C8_witness :
    (process_pack clk0 c8entries).1 = 0 ∧
    (process_pack clk0 c8entries).2[0]? =
      some (clk0 0, spec_wrap_payload (JValue.jobj [(strL "a", JValue.jnum (strL "1"))])) ∧
    (process_pack clk0 c8entries).2[1]? =
      some (clk0 1, spec_wrap_payload (JValue.jarr [])) ∧
    (∃ seg, ((clk0 0, JValue.jobj [(strL "log", JValue.jstr (strL "x"))]) : Envelope) =
      (clk0 0, JValue.jobj [(strL "log", JValue.jstr seg)])) := by
  have h := C8_envelope_shape clk0 c8entries
    (by intro e he; simp [c8entries] at he; rcases he with rfl | rfl <;> rfl)
  exact ⟨h.1, h.2.1 0 _ rfl, h.2.1 1 _ rfl,
    h.2.2 (strL "\n") (strL "x\n") 0 _ rfl⟩

/-- Helper: the strip never lengthens the buffer. -/
theorem strip_leading_length_le (b : List Char) : (strip_leading b).length ≤ b.length := by
  unfold strip_leading
  split
  · exact Nat.le_refl _
  · split
    · simp
    · exact Nat.le_refl _

/-- Helper: consumption never lengthens the valid region. -/
theorem consume_front_length_le (b : List Char) (n : Nat) :
    (consume_front b n).length ≤ b.length :=
  le_trans (List.length_take_le _ _) (Nat.sub_le _ _)

/-- Helper: the JSON framing pass never touches the capacity and never
lengthens the valid region. -/
theorem parse_payload_json_conn (clock : Nat → Nat) (c : Conn) :
    (parse_payload_json clock c).1.bufSize = c.bufSize ∧
    (parse_payload_json clock c).1.buf.length ≤ c.buf.length := by
  unfold parse_payload_json
  split <;> simp

/-- Helper: a successful growth check keeps the buffer contents, never
shrinks the capacity, and respects the ceiling. -/
theorem grow_if_needed_facts (ctx : Config) (cb cC : Conn)
    (h2 : cb.bufSize ≤ ctx.bufferSize)
    (h : grow_if_needed ctx cb = some cC) :
    cC.buf = cb.buf ∧ cb.bufSize ≤ cC.bufSize ∧ cC.bufSize ≤ ctx.bufferSize := by
  unfold grow_if_needed at h
  split at h
  · split at h
    · cases h
    · rename_i hguard
      injection h with h
      subst h
      refine ⟨rfl, Nat.le_add_right _ _, ?_⟩
      show cb.bufSize + ctx.chunkSize ≤ ctx.bufferSize
      omega
  · injection h with h
    subst h
    exact ⟨rfl, Nat.le_refl _, h2⟩

/-- Helper: a single readability event preserves the two buffer
invariants `length < capacity` and `capacity ≤ ceiling`. -/
theorem event_conn_inv_aux (clock : Nat → Nat) (ctx : Config) (c : Conn) (inc : List Char)
    (r : EventResult) (h1 : c.buf.length < c.bufSize) (h2 : c.bufSize ≤ ctx.bufferSize)
    (hr : udp_conn_event clock ctx c inc = r) :
    r.conn.buf.length < r.conn.bufSize ∧ r.conn.bufSize ≤ ctx.bufferSize := by
  have hrp : (reset_pending ctx c).bufSize = c.bufSize := by
    unfold reset_pending; split <;> rfl
  simp only [udp_conn_event] at hr
  split at hr
  · -- growth failed: connection kept with emptied buffer
    subst hr
    constructor
    · show ([] : List Char).length < (reset_pending ctx c).bufSize
      rw [hrp]; simp; omega
    · show (reset_pending ctx c).bufSize ≤ ctx.bufferSize
      rw [hrp]; exact h2
  · rename_i cC heq
    have hgf := grow_if_needed_facts ctx { reset_pending ctx c with buf := [] } cC
      (by show (reset_pending ctx c).bufSize ≤ ctx.bufferSize; rw [hrp]; exact h2) heq
    have hbufC : cC.buf = [] := hgf.1
    have hszC : c.bufSize ≤ cC.bufSize := by
      have := hgf.2.1
      rw [show ({ reset_pending ctx c with buf := [] } : Conn).bufSize
            = (reset_pending ctx c).bufSize from rfl, hrp] at this
      exact this
    have hceilC : cC.bufSize ≤ ctx.bufferSize := hgf.2.2
    have hpos : 0 < cC.bufSize := by omega
    have hdata : (inc.take (cC.bufSize - cC.buf.length - 1)).length
        ≤ cC.bufSize - cC.buf.length - 1 := List.length_take_le _ _
    have hbl : cC.buf.length = 0 := by rw [hbufC]; rfl
    split at hr
    · -- zero-byte read
      subst hr
      refine ⟨?_, hceilC⟩
      show cC.buf.length < cC.bufSize
      omega
    · split at hr
      · -- JSON format
        have hpj := parse_payload_json_conn clock
          { cC with buf := strip_leading (inc.take (cC.bufSize - cC.buf.length - 1)) }
        have hstrip := strip_leading_length_le (inc.take (cC.bufSize - cC.buf.length - 1))
        have hpj1 : (parse_payload_json clock
            { cC with buf := strip_leading (inc.take (cC.bufSize - cC.buf.length - 1)) }).1.bufSize
            = cC.bufSize := hpj.1
        have hpj2 : (parse_payload_json clock
            { cC with buf := strip_leading (inc.take (cC.bufSize - cC.buf.length - 1)) }).1.buf.length
            ≤ (strip_leading (inc.take (cC.bufSize - cC.buf.length - 1))).length := hpj.2
        split at hr
        · subst hr
          refine ⟨?_, ?_⟩
          · show (parse_payload_json clock _).1.buf.length < (parse_payload_json clock _).1.bufSize
            rw [hpj1]; omega
          · show (parse_payload_json clock _).1.bufSize ≤ ctx.bufferSize
            rw [hpj1]; exact hceilC
        · split at hr
          · subst hr
            refine ⟨?_, ?_⟩
            · show (parse_payload_json clock _).1.buf.length < (parse_payload_json clock _).1.bufSize
              rw [hpj1]; omega
            · show (parse_payload_json clock _).1.bufSize ≤ ctx.bufferSize
              rw [hpj1]; exact hceilC
          · subst hr
            have hcons := consume_front_length_le
              (parse_payload_json clock
                { cC with buf := strip_leading (inc.take (cC.bufSize - cC.buf.length - 1)) }).1.buf
              (parse_payload_json clock
                { cC with buf := strip_leading (inc.take (cC.bufSize - cC.buf.length - 1)) }).2.1.toNat
            refine ⟨?_, ?_⟩
            · show (consume_front _ _).length < (parse_payload_json clock _).1.bufSize
              rw [hpj1]; omega
            · show (parse_payload_json clock _).1.bufSize ≤ ctx.bufferSize
              rw [hpj1]; exact hceilC
      · -- delimited format
        have hstrip := strip_leading_length_le (inc.take (cC.bufSize - cC.buf.length - 1))
        split at hr
        · subst hr
          exact ⟨by show (strip_leading _).length < cC.bufSize; omega, hceilC⟩
        · split at hr
          · subst hr
            exact ⟨by show ([] : List Char).length < cC.bufSize; simp; omega, hceilC⟩
          · subst hr
            have hcons := consume_front_length_le
              (strip_leading (inc.take (cC.bufSize - cC.buf.length - 1)))
              ((parse_payload_none ctx.separator clock
                (strip_leading (inc.take (cC.bufSize - cC.buf.length - 1)))).2 : Int).toNat
            exact ⟨by show (consume_front _ _).length < cC.bufSize; omega, hceilC⟩

/-- Helper: the buffer invariants are preserved across any sequence of
readability events. -/
theorem run_events_inv (clock : Nat → Nat) (ctx : Config) :
    ∀ (ds : List (List Char)) (c : Conn),
      c.buf.length < c.bufSize → c.bufSize ≤ ctx.bufferSize →
      (run_events clock ctx c ds).buf.length < (run_events clock ctx c ds).bufSize ∧
      (run_events clock ctx c ds).bufSize ≤ ctx.bufferSize := by
  intro ds
  induction ds with
  | nil => intro c h1 h2; exact ⟨h1, h2⟩
  | cons d ds ih =>
    intro c h1 h2
    have h := event_conn_inv_aux clock ctx c d (udp_conn_event clock ctx c d) h1 h2 rfl
    exact ih (udp_conn_event clock ctx c d).conn h.1 h.2

/-- Helper: an event that needs growth the ceiling cannot accommodate
fails before any reallocation. -/
theorem grow_if_needed_none (ctx : Config) (cb : Conn) (hbuf : cb.buf = [])
    (hsz : cb.bufSize ≤ 1) (hc : ctx.bufferSize < cb.bufSize + ctx.chunkSize) :
    grow_if_needed ctx cb = none := by
  unfold grow_if_needed
  rw [if_pos, if_pos hc]
  rw [hbuf]
  simp
  omega

/-- Claim C5: for every sequence of readability events the buffer
capacity never exceeds the configured ceiling and the invariant
`length < capacity` is preserved; an event whose required growth
(`buf_size + chunk_size`) would exceed the ceiling performs no growth —
the capacity is unchanged — and fails with the fatal -1 return that
tears the connection down. -/
theorem C5_capacity_ceiling (clock : Nat → Nat) (ctx : Config) (c : Conn)
    (ds : List (List Char))
    (h1 : c.buf.length < c.bufSize) (h2 : c.bufSize ≤ ctx.bufferSize) :
    ((run_events clock ctx c ds).buf.length < (run_events clock ctx c ds).bufSize ∧
      (run_events clock ctx c ds).bufSize ≤ ctx.bufferSize) ∧
    (∀ inc, c.bufSize ≤ 1 → ctx.bufferSize < c.bufSize + ctx.chunkSize →
      (udp_conn_event clock ctx c inc).conn.bufSize = c.bufSize ∧
      (udp_conn_event clock ctx c inc).ret = -1) := by
  refine ⟨run_events_inv clock ctx ds c h1 h2, ?_⟩
  intro inc hsz hc
  have hrp : (reset_pending ctx c).bufSize = c.bufSize := by
    unfold reset_pending; split <;> rfl
  have hgrow : grow_if_needed ctx { reset_pending ctx c with buf := [] } = none := by
    apply grow_if_needed_none
    · rfl
    · show (reset_pending ctx c).bufSize ≤ 1
      rw [hrp]; exact hsz
    · show ctx.bufferSize < (reset_pending ctx c).bufSize + ctx.chunkSize
      rw [hrp]; exact hc
  simp only [udp_conn_event, hgrow]
  exact ⟨hrp, trivial⟩

/-- Claim C5: witness — a one-byte chunk at a one-byte ceiling: the
event needs growth, growth would exceed the ceiling, so the event fails
with capacity unchanged, and the invariants hold across the run. -/
theorem C5_witness :
    ((run_events clk0 ctxCeil connCeil [strL "a"]).buf.length <
        (run_events clk0 ctxCeil connCeil [strL "a"]).bufSize ∧
      (run_events clk0 ctxCeil connCeil [strL "a"]).bufSize ≤ ctxCeil.bufferSize) ∧
    ((udp_conn_event clk0 ctxCeil connCeil (strL "a")).conn.bufSize = connCeil.bufSize ∧
      (udp_conn_event clk0 ctxCeil connCeil (strL "a")).ret = -1) := by
  have h := C5_capacity_ceiling clk0 ctxCeil connCeil [strL "a"] (by decide) (by decide)
  exact ⟨h.1, h.2 (strL "a") (by decide) (by decide)⟩
